import Mathlib

/-! Earth Engine vegetation-index scripts: a per-pixel embedding.

The three scripts (`NDVI_sentinel2_example.js`, `jigsaw_images_NDVI.js`,
`jigsaw_images_RGB.js`) build pipelines of Earth Engine image operations.
Every operation they use acts pixel by pixel, so an image is modelled here by
what it holds at one pixel: for each band its name, its sample value and its
validity mask (`0` means "no data").  The Earth Engine primitives follow their
API descriptions; the script functions are transcribed call by call.
-/

namespace GEE

/-! ## Data model -/

/-- One band of an image at one pixel: the sample and its mask (0 = no data). -/
structure Px (α : Type) where
  value : α
  mask : ℚ
deriving DecidableEq

/-- One pixel of a multi-band image: the bands in order, each with its name. -/
abbrev Image (α : Type) := List (String × Px α)

/-- A pixel of a band is kept (is data) when its mask is not zero. -/
def Px.kept {α : Type} (p : Px α) : Bool := decide (p.mask ≠ 0)

/-- Sample types of the bands: integer bands (the raw Landsat and Sentinel-2
products) and fractional bands; `toRat` is the exact numeric reading of a sample. -/
class Numeric (β : Type) where
  toRat : β → ℚ

instance : Numeric Int := ⟨fun v => (v : ℚ)⟩

instance : Numeric ℚ := ⟨fun v => v⟩

/-! ## Earth Engine primitives used by the scripts -/

/-- The call `image.select(name)` with one name: the band of that name; an
error (`none`) when the image has no such band. -/
def select {α : Type} (image : Image α) (name : String) : Option (Px α) :=
  image.lookup name

/-- The call `image.select(names)` with a list: the named bands in the order
of the list; an error when one of them is absent. -/
def selectBands {α : Type} (image : Image α) : List String → Option (Image α)
  | [] => some []
  | n :: rest =>
    match image.lookup n with
    | none => none
    | some p => (selectBands image rest).map (fun sel => (n, p) :: sel)

/-- The call `image.rename(names)`: new names position by position; an error
when the number of names differs from the number of bands. -/
def rename {α : Type} (image : Image α) (names : List String) :
    Option (Image α) :=
  if image.length = names.length then
    some (List.zipWith (fun n b => (n, b.2)) names image)
  else none

/-- The call `a.bitwiseAnd(m)` with a constant: bitwise AND of the sample
(two's complement), the mask unchanged. -/
def bitwiseAnd (a : Px Int) (m : Int) : Px Int :=
  ⟨Int.land a.value m, a.mask⟩

/-- The call `a.eq(c)` with a constant: 1 where the sample equals `c`, else 0. -/
def eq (a : Px Int) (c : Int) : Px Int :=
  ⟨if a.value = c then 1 else 0, a.mask⟩

/-- The call `a.and(b)`: 1 where both samples are non-zero, else 0; the result
is masked where either input is. -/
def and (a b : Px Int) : Px Int :=
  ⟨if a.value ≠ 0 ∧ b.value ≠ 0 then 1 else 0, min a.mask b.mask⟩

/-- The call `a.or(b)`: 1 where either sample is non-zero, else 0. -/
def or (a b : Px Int) : Px Int :=
  ⟨if a.value ≠ 0 ∨ b.value ≠ 0 then 1 else 0, min a.mask b.mask⟩

/-- The call `a.not()`: 1 where the sample is zero, else 0. -/
def not (a : Px Int) : Px Int :=
  ⟨if a.value = 0 then 1 else 0, a.mask⟩

/-- The value a mask image contributes at a pixel: its sample, or 0 where the
mask image has no data itself. -/
def maskValue {β : Type} [Numeric β] (m : Px β) : ℚ :=
  if m.mask = 0 then 0 else Numeric.toRat m.value

/-- One band of `updateMask`: the mask is updated to the mask image's value
wherever the existing mask is not zero. -/
def Px.updateMask {α β : Type} [Numeric β] (p : Px α) (m : Px β) : Px α :=
  ⟨p.value, if p.mask = 0 then 0 else maskValue m⟩

/-- The call `image.updateMask(m)` with a one-band mask image, which applies to
every band of the image. -/
def updateMask {α β : Type} [Numeric β] (image : Image α) (m : Px β) : Image α :=
  image.map (fun b => (b.1, b.2.updateMask m))

/-- The call `image.updateMask(m)` with a mask image that has as many bands as
the image: the bands are matched by position. -/
def updateMaskBands {α β : Type} [Numeric β] (image : Image α) (m : Image β) :
    Image α :=
  List.zipWith (fun b mb => (b.1, b.2.updateMask mb.2)) image m

/-- The call `image.mask()`: the masks of the bands as an image that has data
everywhere. -/
def mask {α : Type} (image : Image α) : Image ℚ :=
  image.map (fun b => (b.1, ⟨b.2.mask, 1⟩))

/-- The call `image.reduce(ee.Reducer.min())`: the least sample over the bands
that have data; no data when no band has. -/
def reduceMin (image : Image ℚ) : Px ℚ :=
  match (image.filter (fun b => b.2.kept)).map (fun b => b.2.value) with
  | [] => ⟨0, 0⟩
  | v :: vs => ⟨vs.foldl min v, 1⟩

/-- The call `image.divide(c)` with a non-zero constant on an integer image:
every sample divided by `c` as a fraction, masks unchanged. -/
def divide (image : Image Int) (c : ℚ) : Image ℚ :=
  image.map (fun b => (b.1, ⟨(b.2.value : ℚ) / c, b.2.mask⟩))

/-! ## Cloud masks -/

/-- The local `mask` of `maskS2clouds` (NDVI_sentinel2_example.js, lines 19-25). -/
def maskS2cloudsMask (qa : Px Int) : Px Int :=
  let cloudBitMask : Int := ((1 <<< 10 : Nat) : Int)
  let cirrusBitMask : Int := ((1 <<< 11 : Nat) : Int)
  and (eq (bitwiseAnd qa cloudBitMask) 0) (eq (bitwiseAnd qa cirrusBitMask) 0)

/-- NDVI_sentinel2_example.js, `maskS2clouds`. -/
def maskS2clouds (image : Image Int) : Option (Image ℚ) :=
  (select image "QA60").map (fun qa =>
    divide (updateMask image (maskS2cloudsMask qa)) 10000)

/-- The local `mask` of `maskL8sr` (jigsaw_images_NDVI.js, lines 29-35). -/
def maskL8srMask (qa : Px Int) : Px Int :=
  let cloudShadowBitMask : Int := ((1 <<< 3 : Nat) : Int)
  let cloudsBitMask : Int := ((1 <<< 5 : Nat) : Int)
  and (eq (bitwiseAnd qa cloudShadowBitMask) 0) (eq (bitwiseAnd qa cloudsBitMask) 0)

/-- Both jigsaw scripts, `maskL8sr`. -/
def maskL8sr (image : Image Int) : Option (Image Int) :=
  (select image "pixel_qa").map (fun qa => updateMask image (maskL8srMask qa))

/-- The local `cloud` of `cloudMaskL457` (jigsaw_images_NDVI.js, lines 18-20). -/
def cloudMaskL457Cloud (qa : Px Int) : Px Int :=
  or (and (bitwiseAnd qa ((1 <<< 5 : Nat) : Int)) (bitwiseAnd qa ((1 <<< 7 : Nat) : Int)))
    (bitwiseAnd qa ((1 <<< 3 : Nat) : Int))

/-- Both jigsaw scripts, `cloudMaskL457`. -/
def cloudMaskL457 (image : Image Int) : Option (Image Int) :=
  (select image "pixel_qa").map (fun qa =>
    let cloud := cloudMaskL457Cloud qa
    let mask2 := reduceMin (mask image)
    updateMask (updateMask image (not cloud)) mask2)

/-! ## Band renaming -/

/-- The local `bands` of `renameBandsETM`. -/
def renameBandsETM.bands : List String :=
  ["B1", "B2", "B3", "B4", "B5", "B7", "pixel_qa"]

/-- The local `new_bands` of `renameBandsETM`. -/
def renameBandsETM.new_bands : List String :=
  ["B", "G", "R", "NIR", "SWIR1", "SWIR2", "pixel_qa"]

/-- Both jigsaw scripts, `renameBandsETM` (Landsat 7). -/
def renameBandsETM {α : Type} (image : Image α) : Option (Image α) :=
  (selectBands image renameBandsETM.bands).bind
    (fun sel => rename sel renameBandsETM.new_bands)

/-- The local `bands` of `renameBandsOLI`. -/
def renameBandsOLI.bands : List String :=
  ["B2", "B3", "B4", "B5", "B6", "B7", "pixel_qa"]

/-- The local `new_bands` of `renameBandsOLI`. -/
def renameBandsOLI.new_bands : List String :=
  ["B", "G", "R", "NIR", "SWIR1", "SWIR2", "pixel_qa"]

/-- Both jigsaw scripts, `renameBandsOLI` (Landsat 8). -/
def renameBandsOLI {α : Type} (image : Image α) : Option (Image α) :=
  (selectBands image renameBandsOLI.bands).bind
    (fun sel => rename sel renameBandsOLI.new_bands)

/-- The local `bands` of `renameBandsMODIS`. -/
def renameBandsMODIS.bands : List String :=
  ["sur_refl_b01", "sur_refl_b02", "sur_refl_b03", "sur_refl_b04",
   "sur_refl_b05", "sur_refl_b06", "sur_refl_b07", "QC_500m"]

/-- The local `new_bands` of `renameBandsMODIS`. -/
def renameBandsMODIS.new_bands : List String :=
  ["R", "NIR", "B", "G", "Cirrus", "SWIR1", "SWIR2", "pixel_qa"]

/-- Both jigsaw scripts, `renameBandsMODIS`. -/
def renameBandsMODIS {α : Type} (image : Image α) : Option (Image α) :=
  (selectBands image renameBandsMODIS.bands).bind
    (fun sel => rename sel renameBandsMODIS.new_bands)

/-- The acquisition date of an image, as far as the calendar filters read it. -/
structure Stamp where
  year : Int
  month : Int
deriving DecidableEq

/-- The calendar field named by the third argument of `calendarRange`. -/
inductive Field where
  | year
  | month
deriving DecidableEq

/-- The value of a calendar field of a date. -/
def Stamp.field (s : Stamp) : Field → Int
  | Field.year => s.year
  | Field.month => s.month

/-- The filter `ee.Filter.calendarRange(start, end, field)`: the field lies in
the range; when `end < start` the range wraps (value ≥ start or value ≤ end). -/
def calendarRange (start stop : Int) (f : Field) (s : Stamp) : Bool :=
  if start ≤ stop then decide (start ≤ s.field f) && decide (s.field f ≤ stop)
  else decide (start ≤ s.field f) || decide (s.field f ≤ stop)

/-- The filter `ee.Filter.or(f, g)`. -/
def Filter.or (f g : Stamp → Bool) (s : Stamp) : Bool := f s || g s

/-- An image collection: the images with their acquisition dates. -/
abbrev Collection (α : Type) := List (Stamp × Image α)

/-- The call `collection.filter(f)` with a date filter. -/
def Collection.filter {α : Type} (c : Collection α) (f : Stamp → Bool) :
    Collection α :=
  List.filter (fun x => f x.1) c

/-- The filter of `winter` (jigsaw_images_NDVI.js, lines 121-122). -/
def winterFilter : Stamp → Bool :=
  Filter.or (calendarRange 1 2 Field.month) (calendarRange 12 12 Field.month)

/-- The filter of `spring`. -/
def springFilter : Stamp → Bool := calendarRange 3 5 Field.month

/-- The filter of `summer`. -/
def summerFilter : Stamp → Bool := calendarRange 6 8 Field.month

/-- The filter of `autumn`. -/
def autumnFilter : Stamp → Bool := calendarRange 9 11 Field.month

/-- The collection `winter`. -/
def winter {α : Type} (EOdata : Collection α) : Collection α :=
  EOdata.filter winterFilter

/-- The collection `spring`. -/
def spring {α : Type} (EOdata : Collection α) : Collection α :=
  EOdata.filter springFilter

/-- The collection `summer`. -/
def summer {α : Type} (EOdata : Collection α) : Collection α :=
  EOdata.filter summerFilter

/-- The collection `autumn`. -/
def autumn {α : Type} (EOdata : Collection α) : Collection α :=
  EOdata.filter autumnFilter

/-! ## Index arithmetic -/

/-- A selected band read as a number inside an expression. -/
def Px.toRat {α : Type} [Numeric α] (p : Px α) : Px ℚ :=
  ⟨Numeric.toRat p.value, p.mask⟩

/-- The call `a.gte(c)` with a constant: 1 where the sample is at least `c`. -/
def gte (a : Px ℚ) (c : ℚ) : Px Int := ⟨if c ≤ a.value then 1 else 0, a.mask⟩

/-- The call `a.lte(c)` with a constant: 1 where the sample is at most `c`. -/
def lte (a : Px ℚ) (c : ℚ) : Px Int := ⟨if a.value ≤ c then 1 else 0, a.mask⟩

/-- jigsaw_images_NDVI.js, `threshold`:
`image.updateMask(image.gte(0.1).and(image.lte(1)))`, band by band. -/
def threshold (image : Image ℚ) : Image ℚ :=
  updateMaskBands image
    (image.map (fun b => (b.1, and (gte b.2 (1 / 10)) (lte b.2 1))))

theorem ldiff_two_pow_eq_zero (n k : ℕ) :
    Nat.ldiff (2 ^ k) n = 0 ↔ n.testBit k = true := by
  constructor
  · intro h
    have := congrArg (fun x => Nat.testBit x k) h
    simpa [Nat.testBit_ldiff, Nat.testBit_two_pow_self] using this
  · intro h
    apply Nat.eq_of_testBit_eq
    intro i
    rw [Nat.testBit_ldiff, Nat.testBit_two_pow]
    by_cases hik : k = i
    · subst hik; simp [h]
    · simp [hik]

theorem nat_land_two_pow_eq_zero (n k : ℕ) :
    n &&& 2 ^ k = 0 ↔ n.testBit k = false := by
  rw [Nat.and_two_pow]
  cases h : n.testBit k <;> simp

/-- Masking with a single bit gives zero exactly when that bit is clear, for
negative samples (two's complement) as well. -/
theorem land_two_pow_eq_zero (qa : Int) (k : ℕ) :
    Int.land qa ((2 ^ k : ℕ) : Int) = 0 ↔ Int.testBit qa k = false := by
  cases qa with
  | ofNat n =>
    show ((n &&& 2 ^ k : ℕ) : Int) = 0 ↔ Nat.testBit n k = false
    rw [Int.natCast_eq_zero]
    exact nat_land_two_pow_eq_zero n k
  | negSucc n =>
    show ((Nat.ldiff (2 ^ k) n : ℕ) : Int) = 0 ↔ (!Nat.testBit n k) = false
    rw [Int.natCast_eq_zero, ldiff_two_pow_eq_zero]
    simp

theorem land_shift_eq_zero (qa : Int) (k : ℕ) :
    Int.land qa ((1 <<< k : ℕ) : Int) = 0 ↔ Int.testBit qa k = false := by
  rw [Nat.one_shiftLeft]
  exact land_two_pow_eq_zero qa k

theorem select_mem {α : Type} (image : Image α) (name : String) (p : Px α)
    (h : select image name = some p) : (name, p) ∈ image := by
  unfold select at h
  induction image with
  | nil => simp at h
  | cons b rest ih =>
    obtain ⟨n, q⟩ := b
    by_cases hn : name = n
    · subst hn
      simp [List.lookup] at h
      subst h
      exact List.mem_cons_self _ _
    · have hb : (name == n) = false := by simpa using hn
      rw [List.lookup, hb] at h
      exact List.mem_cons_of_mem _ (ih h)

theorem foldl_min_le (vs : List ℚ) (v : ℚ) :
    vs.foldl min v ≤ v ∧ (∀ x ∈ vs, vs.foldl min v ≤ x) ∧
      (vs.foldl min v = v ∨ vs.foldl min v ∈ vs) := by
  induction vs generalizing v with
  | nil => simp
  | cons w ws ih =>
    obtain ⟨h1, h2, h3⟩ := ih (min v w)
    refine ⟨le_trans h1 (min_le_left _ _), ?_, ?_⟩
    · intro x hx
      rcases List.mem_cons.mp hx with rfl | hx
      · exact le_trans h1 (min_le_right _ _)
      · exact h2 x hx
    · rcases h3 with h3 | h3
      · simp only [List.foldl_cons]
        rcases min_choice v w with hm | hm
        · left; rw [h3, hm]
        · right; rw [h3, hm]; exact List.mem_cons_self _ _
      · right; exact List.mem_cons_of_mem _ h3

/-- On an image with at least one band, `image.mask().reduce(min)` has data and
its sample is the least of the band masks. -/
theorem reduceMin_mask {α : Type} (image : Image α) (hne : image ≠ []) :
    (reduceMin (mask image)).mask = 1 ∧
      (∀ b ∈ image, (reduceMin (mask image)).value ≤ b.2.mask) ∧
      (∃ b ∈ image, b.2.mask = (reduceMin (mask image)).value) := by
  have hfil : (mask image).filter (fun b => b.2.kept) = mask image := by
    apply List.filter_eq_self.mpr
    intro b hb
    simp only [mask, List.mem_map] at hb
    obtain ⟨a, _, rfl⟩ := hb
    simp [Px.kept]
  have hmap : (mask image).map (fun b => b.2.value) = image.map (fun b => b.2.mask) := by
    simp [mask, List.map_map, Function.comp_def]
  unfold reduceMin
  rw [hfil, hmap]
  cases image with
  | nil => exact absurd rfl hne
  | cons a rest =>
    obtain ⟨h1, h2, h3⟩ := foldl_min_le (rest.map (fun b => b.2.mask)) a.2.mask
    refine ⟨rfl, ?_, ?_⟩
    · intro b hb
      rcases List.mem_cons.mp hb with rfl | hb
      · exact h1
      · exact h2 _ (List.mem_map_of_mem _ hb)
    · rcases h3 with h3 | h3
      · exact ⟨a, List.mem_cons_self _ _, h3.symm⟩
      · obtain ⟨b, hb, hbe⟩ := List.mem_map.mp h3
        exact ⟨b, List.mem_cons_of_mem _ hb, hbe⟩

theorem maskS2cloudsMask_value (qa : Px Int) :
    (maskS2cloudsMask qa).value =
      if Int.testBit qa.value 10 = false ∧ Int.testBit qa.value 11 = false then 1 else 0 := by
  have h10 := land_shift_eq_zero qa.value 10
  have h11 := land_shift_eq_zero qa.value 11
  simp only [maskS2cloudsMask, and, eq, bitwiseAnd]
  by_cases c10 : Int.land qa.value ((1 <<< 10 : ℕ) : Int) = 0 <;>
    by_cases c11 : Int.land qa.value ((1 <<< 11 : ℕ) : Int) = 0 <;>
    simp [c10, c11, ← h10, ← h11]

theorem maskS2cloudsMask_mask (qa : Px Int) : (maskS2cloudsMask qa).mask = qa.mask := by
  simp [maskS2cloudsMask, and, eq, bitwiseAnd]

theorem maskL8srMask_value (qa : Px Int) :
    (maskL8srMask qa).value =
      if Int.testBit qa.value 3 = false ∧ Int.testBit qa.value 5 = false then 1 else 0 := by
  have h3 := land_shift_eq_zero qa.value 3
  have h5 := land_shift_eq_zero qa.value 5
  simp only [maskL8srMask, and, eq, bitwiseAnd]
  by_cases c3 : Int.land qa.value ((1 <<< 3 : ℕ) : Int) = 0 <;>
    by_cases c5 : Int.land qa.value ((1 <<< 5 : ℕ) : Int) = 0 <;>
    simp [c3, c5, ← h3, ← h5]

theorem maskL8srMask_mask (qa : Px Int) : (maskL8srMask qa).mask = qa.mask := by
  simp [maskL8srMask, and, eq, bitwiseAnd]

/-- A band that has data keeps it under `updateMask` exactly when the mask image
has data and a non-zero sample at the pixel. -/
theorem updateMask_kept {α : Type} (p : Px α) (m : Px Int) (hp : p.mask ≠ 0)
    (hm : m.mask ≠ 0) : (p.updateMask m).kept = true ↔ m.value ≠ 0 := by
  simp [Px.updateMask, Px.kept, maskValue, hp, hm, Numeric.toRat]

/-! ## Cloud masks: the properties -/

/-- C1. For every integer sample `qa` of the QA60 band, the mask computed by
`maskS2clouds` is 1 if and only if bits 10 and 11 of `qa` are both 0, that is
`qa AND 1024 = 0` and `qa AND 2048 = 0`, and it is 0 otherwise; on an image that
has the QA60 band and data in every band, `maskS2clouds` returns an image and
keeps each band of the pixel exactly in that case, with the samples divided by
10000.  The sample 1024 is masked and the sample 0 is kept. -/
theorem maskS2clouds_keeps_iff (image : Image Int) (qa : Px Int)
    (hqa : select image "QA60" = some qa) (hvalid : ∀ b ∈ image, b.2.mask ≠ 0) :
    ((maskS2cloudsMask qa).value = 1 ↔
        (Int.testBit qa.value 10 = false ∧ Int.testBit qa.value 11 = false)) ∧
    ((maskS2cloudsMask qa).value = 1 ∨ (maskS2cloudsMask qa).value = 0) ∧
    ((Int.testBit qa.value 10 = false ∧ Int.testBit qa.value 11 = false) ↔
        (Int.land qa.value 1024 = 0 ∧ Int.land qa.value 2048 = 0)) ∧
    (∃ out, maskS2clouds image = some out ∧
        out.map Prod.fst = image.map Prod.fst ∧
        out.map (fun b => b.2.value) = image.map (fun b => (b.2.value : ℚ) / 10000) ∧
        ∀ b ∈ out, (b.2.kept = true ↔
          (Int.testBit qa.value 10 = false ∧ Int.testBit qa.value 11 = false))) ∧
    (qa.value = 1024 → (maskS2cloudsMask qa).value = 0) ∧
    (qa.value = 0 → (maskS2cloudsMask qa).value = 1) := by
  have hv := maskS2cloudsMask_value qa
  refine ⟨?_, ?_, ?_, ?_, ?_, ?_⟩
  · rw [hv]; split_ifs with h <;> simp [h]
  · rw [hv]; split_ifs <;> simp
  · rw [← land_shift_eq_zero, ← land_shift_eq_zero]; rfl
  · refine ⟨_, by rw [maskS2clouds, hqa]; rfl, ?_, ?_, ?_⟩
    · simp [divide, updateMask, List.map_map, Function.comp_def]
    · simp [divide, updateMask, List.map_map, Function.comp_def, Px.updateMask]
    · intro b hb
      simp only [divide, updateMask, List.map_map, List.mem_map, Function.comp_def] at hb
      obtain ⟨a, ha, rfl⟩ := hb
      have hq : qa.mask ≠ 0 := hvalid _ (select_mem image _ qa hqa)
      have hk := updateMask_kept a.2 (maskS2cloudsMask qa) (hvalid a ha)
        (by rw [maskS2cloudsMask_mask]; exact hq)
      have hsame : (Px.kept (⟨(a.2.updateMask (maskS2cloudsMask qa)).value / 10000,
          (a.2.updateMask (maskS2cloudsMask qa)).mask⟩ : Px ℚ)) =
          (a.2.updateMask (maskS2cloudsMask qa)).kept := rfl
      show Px.kept (⟨_, _⟩ : Px ℚ) = true ↔ _
      rw [hsame, hk, hv]
      split_ifs with h <;> simp [h]
  · intro h; rw [hv, h]; decide
  · intro h; rw [hv, h]; decide

/-- Witness for C1: an image with a red band and the QA60 sample 1024. -/
theorem maskS2clouds_keeps_iff_witness :
    select ([("B4", ⟨1200, 1⟩), ("QA60", ⟨1024, 1⟩)] : Image Int) "QA60" = some ⟨1024, 1⟩ ∧
    (∀ b ∈ ([("B4", ⟨1200, 1⟩), ("QA60", ⟨1024, 1⟩)] : Image Int), b.2.mask ≠ 0) ∧
    (maskS2cloudsMask ⟨1024, 1⟩).value = 0 :=
  ⟨by decide, by simp,
    (maskS2clouds_keeps_iff [("B4", ⟨1200, 1⟩), ("QA60", ⟨1024, 1⟩)] ⟨1024, 1⟩
      (by decide) (by simp)).2.2.2.2.1 rfl⟩

/-- C2. For every integer sample `qa` of the pixel_qa band, the mask computed by
`maskL8sr` is 1 if and only if bit 3 (cloud shadow) and bit 5 (cloud) of `qa`
are both 0, and 0 otherwise; on an image that has the pixel_qa band and data in
every band, `maskL8sr` returns an image with the same bands and samples and
keeps each band of the pixel exactly in that case.  Every sample with bit 3 set
is masked whatever its other bits are (so is 8), and the sample 0 is kept. -/
theorem maskL8sr_keeps_iff (image : Image Int) (qa : Px Int)
    (hqa : select image "pixel_qa" = some qa) (hvalid : ∀ b ∈ image, b.2.mask ≠ 0) :
    ((maskL8srMask qa).value = 1 ↔
        (Int.testBit qa.value 3 = false ∧ Int.testBit qa.value 5 = false)) ∧
    ((maskL8srMask qa).value = 1 ∨ (maskL8srMask qa).value = 0) ∧
    ((Int.testBit qa.value 3 = false ∧ Int.testBit qa.value 5 = false) ↔
        (Int.land qa.value 8 = 0 ∧ Int.land qa.value 32 = 0)) ∧
    (∃ out, maskL8sr image = some out ∧
        out.map Prod.fst = image.map Prod.fst ∧
        out.map (fun b => b.2.value) = image.map (fun b => b.2.value) ∧
        ∀ b ∈ out, (b.2.kept = true ↔
          (Int.testBit qa.value 3 = false ∧ Int.testBit qa.value 5 = false))) ∧
    (Int.testBit qa.value 3 = true →
        (maskL8srMask qa).value = 0 ∧
        ∀ out, maskL8sr image = some out → ∀ b ∈ out, b.2.kept = false) ∧
    (qa.value = 8 → (maskL8srMask qa).value = 0) ∧
    (qa.value = 0 → (maskL8srMask qa).value = 1) := by
  have hv := maskL8srMask_value qa
  have hkeep : ∀ b ∈ updateMask image (maskL8srMask qa), (b.2.kept = true ↔
      (Int.testBit qa.value 3 = false ∧ Int.testBit qa.value 5 = false)) := by
    intro b hb
    simp only [updateMask, List.mem_map] at hb
    obtain ⟨a, ha, rfl⟩ := hb
    have hq : qa.mask ≠ 0 := hvalid _ (select_mem image _ qa hqa)
    have hk := updateMask_kept a.2 (maskL8srMask qa) (hvalid a ha)
      (by rw [maskL8srMask_mask]; exact hq)
    show Px.kept (a.2.updateMask (maskL8srMask qa)) = true ↔ _
    rw [hk, hv]
    split_ifs with h <;> simp [h]
  have hrun : maskL8sr image = some (updateMask image (maskL8srMask qa)) := by
    rw [maskL8sr, hqa]; rfl
  refine ⟨?_, ?_, ?_, ?_, ?_, ?_, ?_⟩
  · rw [hv]; split_ifs with h <;> simp [h]
  · rw [hv]; split_ifs <;> simp
  · rw [← land_shift_eq_zero, ← land_shift_eq_zero]; rfl
  · refine ⟨_, hrun, ?_, ?_, hkeep⟩
    · simp [updateMask, List.map_map, Function.comp_def]
    · simp [updateMask, List.map_map, Function.comp_def, Px.updateMask]
  · intro h3
    refine ⟨by rw [hv]; simp [h3], ?_⟩
    intro out hout b hb
    rw [hrun, Option.some.injEq] at hout
    subst hout
    have := hkeep b hb
    cases hkb : b.2.kept
    · rfl
    · rw [hkb] at this
      have h' := (this.mp rfl).1
      rw [h3] at h'
      exact absurd h' (by decide)
  · intro h; rw [hv, h]; decide
  · intro h; rw [hv, h]; decide

/-- Witness for C2: an image with a red band and the pixel_qa sample 8. -/
theorem maskL8sr_keeps_iff_witness :
    select ([("R", ⟨731, 1⟩), ("pixel_qa", ⟨8, 1⟩)] : Image Int) "pixel_qa" = some ⟨8, 1⟩ ∧
    (∀ b ∈ ([("R", ⟨731, 1⟩), ("pixel_qa", ⟨8, 1⟩)] : Image Int), b.2.mask ≠ 0) ∧
    (maskL8srMask ⟨8, 1⟩).value = 0 :=
  ⟨by decide, by simp,
    (maskL8sr_keeps_iff [("R", ⟨731, 1⟩), ("pixel_qa", ⟨8, 1⟩)] ⟨8, 1⟩
      (by decide) (by simp)).2.2.2.2.2.1 rfl⟩

theorem cloudMaskL457Cloud_value (qa : Px Int) :
    (cloudMaskL457Cloud qa).value =
      if (Int.testBit qa.value 5 = true ∧ Int.testBit qa.value 7 = true) ∨
          Int.testBit qa.value 3 = true then 1 else 0 := by
  have h3 := land_shift_eq_zero qa.value 3
  have h5 := land_shift_eq_zero qa.value 5
  have h7 := land_shift_eq_zero qa.value 7
  simp only [cloudMaskL457Cloud, or, and, bitwiseAnd]
  by_cases c3 : Int.land qa.value ((1 <<< 3 : ℕ) : Int) = 0 <;>
    by_cases c5 : Int.land qa.value ((1 <<< 5 : ℕ) : Int) = 0 <;>
    by_cases c7 : Int.land qa.value ((1 <<< 7 : ℕ) : Int) = 0 <;>
    simp [c3, c5, c7, ← Bool.not_eq_false, ← h3, ← h5, ← h7]

theorem cloudMaskL457Cloud_mask (qa : Px Int) : (cloudMaskL457Cloud qa).mask = qa.mask := by
  simp [cloudMaskL457Cloud, or, and, bitwiseAnd]

/-- C3. For every integer sample `qa` of the pixel_qa band and all band masks
(each at least 0), `cloudMaskL457` classifies the pixel as bad (`cloud` is not
zero) if and only if (bit 5 and bit 7 of `qa` are set) or bit 3 is set; it
returns an image with the same bands and samples, and it keeps each band of the
pixel if and only if the pixel is not bad and the minimum of the band masks is
not zero. -/
theorem cloudMaskL457_keeps_iff (image : Image Int) (qa : Px Int)
    (hqa : select image "pixel_qa" = some qa) (hmask : ∀ b ∈ image, 0 ≤ b.2.mask) :
    ((cloudMaskL457Cloud qa).value ≠ 0 ↔
        ((Int.testBit qa.value 5 = true ∧ Int.testBit qa.value 7 = true) ∨
          Int.testBit qa.value 3 = true)) ∧
    ((∀ b ∈ image, (reduceMin (mask image)).value ≤ b.2.mask) ∧
      ∃ b ∈ image, b.2.mask = (reduceMin (mask image)).value) ∧
    (∃ out, cloudMaskL457 image = some out ∧
        out.map Prod.fst = image.map Prod.fst ∧
        out.map (fun b => b.2.value) = image.map (fun b => b.2.value) ∧
        ∀ b ∈ out, (b.2.kept = true ↔
          ((cloudMaskL457Cloud qa).value = 0 ∧ (reduceMin (mask image)).value ≠ 0))) := by
  have hv := cloudMaskL457Cloud_value qa
  have hmem := select_mem image _ qa hqa
  have hne : image ≠ [] := List.ne_nil_of_mem hmem
  obtain ⟨hm1, hmle, hmex⟩ := reduceMin_mask image hne
  refine ⟨?_, ⟨hmle, hmex⟩, ?_⟩
  · rw [hv]; split_ifs with h <;> simp [h]
  · refine ⟨_, by rw [cloudMaskL457, hqa]; rfl, ?_, ?_, ?_⟩
    · simp [updateMask, List.map_map, Function.comp_def]
    · simp [updateMask, List.map_map, Function.comp_def, Px.updateMask]
    · intro b hb
      simp only [updateMask, List.map_map, List.mem_map, Function.comp_def] at hb
      obtain ⟨a, ha, rfl⟩ := hb
      have hmin_nonneg : 0 ≤ (reduceMin (mask image)).value := by
        obtain ⟨c, hc, hce⟩ := hmex
        rw [← hce]; exact hmask c hc
      have hpos : (reduceMin (mask image)).value ≠ 0 → a.2.mask ≠ 0 ∧ qa.mask ≠ 0 := by
        intro h0
        have hlt : 0 < (reduceMin (mask image)).value := lt_of_le_of_ne hmin_nonneg (Ne.symm h0)
        exact ⟨ne_of_gt (lt_of_lt_of_le hlt (hmle a ha)),
          ne_of_gt (lt_of_lt_of_le hlt (hmle _ hmem))⟩
      show Px.kept ((a.2.updateMask (not (cloudMaskL457Cloud qa))).updateMask
        (reduceMin (mask image))) = true ↔ _
      simp only [Px.updateMask, Px.kept, maskValue, not, cloudMaskL457Cloud_mask, hm1,
        Numeric.toRat, decide_eq_true_eq]
      by_cases hc : (cloudMaskL457Cloud qa).value = 0
      · by_cases h0 : (reduceMin (mask image)).value = 0
        · simp [hc, h0]
        · obtain ⟨ha0, hq0⟩ := hpos h0
          simp [hc, h0, ha0, hq0]
      · simp [hc]

/-- Witness for C3: a pixel with cloud (bit 5) and high confidence (bit 7),
half-valid in one band. -/
theorem cloudMaskL457_keeps_iff_witness :
    select ([("B4", ⟨1200, 1 / 2⟩), ("pixel_qa", ⟨160, 1⟩)] : Image Int) "pixel_qa"
      = some ⟨160, 1⟩ ∧
    (∀ b ∈ ([("B4", ⟨1200, 1 / 2⟩), ("pixel_qa", ⟨160, 1⟩)] : Image Int), 0 ≤ b.2.mask) ∧
    ((cloudMaskL457Cloud ⟨160, 1⟩).value ≠ 0 ↔
        ((Int.testBit (160 : Int) 5 = true ∧ Int.testBit (160 : Int) 7 = true) ∨
          Int.testBit (160 : Int) 3 = true)) :=
  ⟨by decide, by norm_num,
    (cloudMaskL457_keeps_iff [("B4", ⟨1200, 1 / 2⟩), ("pixel_qa", ⟨160, 1⟩)] ⟨160, 1⟩
      (by decide) (by norm_num)).1⟩

/-! ## Index arithmetic: the properties -/

theorem threshold_eq_map (image : Image ℚ) :
    threshold image =
      image.map (fun b => (b.1, b.2.updateMask (and (gte b.2 (1 / 10)) (lte b.2 1)))) := by
  unfold threshold updateMaskBands
  induction image with
  | nil => rfl
  | cons b rest ih => simp only [List.map_cons, List.zipWith_cons_cons, ih]

theorem threshold_px_kept (p : Px ℚ) :
    (p.updateMask (and (gte p (1 / 10)) (lte p 1))).kept =
      (p.kept && decide (1 / 10 ≤ p.value) && decide (p.value ≤ 1)) := by
  by_cases hm : p.mask = 0
  · simp [Px.updateMask, Px.kept, hm]
  · by_cases h1 : 1 / 10 ≤ p.value <;> by_cases h2 : p.value ≤ 1 <;>
      simp [Px.updateMask, Px.kept, maskValue, and, gte, lte, Numeric.toRat, hm, h1, h2]

/-- C6. For every index value `v` of a pixel that has data, `threshold` keeps
the pixel if and only if 0.1 ≤ v ≤ 1 (both bounds inclusive) and masks it
otherwise, leaving the value as it is; in an image of several bands this holds
band by band.  The values 0.05 and 1.5 are masked, 0.1 and 1.0 are kept. -/
theorem threshold_keeps_iff (name : String) (v m : ℚ) (hm : m ≠ 0) :
    (∃ q, threshold [(name, ⟨v, m⟩)] = [(name, q)] ∧ q.value = v ∧
      (q.kept = true ↔ (1 / 10 ≤ v ∧ v ≤ 1)) ∧
      (q.kept = false ↔ (v < 1 / 10 ∨ 1 < v))) ∧
    (∀ image : Image ℚ,
      (threshold image).map Prod.fst = image.map Prod.fst ∧
      (threshold image).map (fun b => b.2.value) = image.map (fun b => b.2.value) ∧
      (threshold image).map (fun b => b.2.kept) =
        image.map (fun b => b.2.kept && decide (1 / 10 ≤ b.2.value) && decide (b.2.value ≤ 1))) ∧
    (threshold [("NDVI", ⟨5 / 100, 1⟩)]).map (fun b => b.2.kept) = [false] ∧
    (threshold [("NDVI", ⟨15 / 10, 1⟩)]).map (fun b => b.2.kept) = [false] ∧
    (threshold [("NDVI", ⟨1 / 10, 1⟩)]).map (fun b => b.2.kept) = [true] ∧
    (threshold [("NDVI", ⟨1, 1⟩)]).map (fun b => b.2.kept) = [true] := by
  have hk := threshold_px_kept ⟨v, m⟩
  have hkept : (⟨v, m⟩ : Px ℚ).kept = true := by simp [Px.kept, hm]
  refine ⟨⟨_, by rw [threshold_eq_map]; rfl, rfl, ?_, ?_⟩, ?_, ?_, ?_, ?_, ?_⟩
  · rw [hk, hkept]; simp
  · rw [hk, hkept]
    simp only [Bool.true_and, Bool.and_eq_false_iff, decide_eq_false_iff_not, not_le]
  · intro image
    rw [threshold_eq_map]
    refine ⟨?_, ?_, ?_⟩
    · simp [List.map_map, Function.comp_def]
    · simp [List.map_map, Function.comp_def, Px.updateMask]
    · rw [List.map_map]
      apply List.map_congr_left
      intro b _
      exact threshold_px_kept b.2
  · rw [threshold_eq_map]
    simp only [List.map_cons, List.map_nil, threshold_px_kept]
    norm_num [Px.kept]
  · rw [threshold_eq_map]
    simp only [List.map_cons, List.map_nil, threshold_px_kept]
    norm_num [Px.kept]
  · rw [threshold_eq_map]
    simp only [List.map_cons, List.map_nil, threshold_px_kept]
    norm_num [Px.kept]
  · rw [threshold_eq_map]
    simp only [List.map_cons, List.map_nil, threshold_px_kept]
    norm_num [Px.kept]

/-- Witness for C6: the index value 1/10 on a pixel with data. -/
theorem threshold_keeps_iff_witness :
    ((1 : ℚ) ≠ 0) ∧
    (∃ q, threshold [("NDVI", ⟨1 / 10, 1⟩)] = [("NDVI", q)] ∧ q.value = 1 / 10 ∧
      (q.kept = true ↔ ((1 : ℚ) / 10 ≤ 1 / 10 ∧ (1 : ℚ) / 10 ≤ 1)) ∧
      (q.kept = false ↔ ((1 : ℚ) / 10 < 1 / 10 ∨ (1 : ℚ) < 1 / 10))) :=
  ⟨one_ne_zero, (threshold_keeps_iff "NDVI" (1 / 10) 1 one_ne_zero).1⟩

theorem toRat_self (p : Px ℚ) : p.toRat = p := rfl

theorem winterFilter_iff (s : Stamp) :
    winterFilter s = true ↔ (s.month = 12 ∨ s.month = 1 ∨ s.month = 2) := by
  simp only [winterFilter, Filter.or, calendarRange, Stamp.field]
  simp
  omega

theorem springFilter_iff (s : Stamp) :
    springFilter s = true ↔ (s.month = 3 ∨ s.month = 4 ∨ s.month = 5) := by
  simp only [springFilter, calendarRange, Stamp.field]
  simp
  omega

theorem summerFilter_iff (s : Stamp) :
    summerFilter s = true ↔ (s.month = 6 ∨ s.month = 7 ∨ s.month = 8) := by
  simp only [summerFilter, calendarRange, Stamp.field]
  simp
  omega

theorem autumnFilter_iff (s : Stamp) :
    autumnFilter s = true ↔ (s.month = 9 ∨ s.month = 10 ∨ s.month = 11) := by
  simp only [autumnFilter, calendarRange, Stamp.field]
  simp
  omega

/-- C8. The four season filters partition the calendar months: for every month
number 1..12 the winter filter accepts it iff it is 12, 1 or 2, spring iff 3, 4
or 5, summer iff 6, 7 or 8, autumn iff 9, 10 or 11, so exactly one of the four
filters accepts it; the year plays no part, and the four collections hold
exactly the images of `EOdata` of those months. -/
theorem seasons_partition (s : Stamp) (h1 : 1 ≤ s.month) (h12 : s.month ≤ 12) :
    (winterFilter s = true ↔ (s.month = 12 ∨ s.month = 1 ∨ s.month = 2)) ∧
    (springFilter s = true ↔ (s.month = 3 ∨ s.month = 4 ∨ s.month = 5)) ∧
    (summerFilter s = true ↔ (s.month = 6 ∨ s.month = 7 ∨ s.month = 8)) ∧
    (autumnFilter s = true ↔ (s.month = 9 ∨ s.month = 10 ∨ s.month = 11)) ∧
    ([winterFilter s, springFilter s, summerFilter s, autumnFilter s].count true = 1) ∧
    (∀ y : Int, winterFilter ⟨y, s.month⟩ = winterFilter s ∧
      springFilter ⟨y, s.month⟩ = springFilter s ∧
      summerFilter ⟨y, s.month⟩ = summerFilter s ∧
      autumnFilter ⟨y, s.month⟩ = autumnFilter s) ∧
    (∀ (EOdata : Collection Int) (x : Stamp × Image Int),
      (x ∈ winter EOdata ↔ (x ∈ EOdata ∧ (x.1.month = 12 ∨ x.1.month = 1 ∨ x.1.month = 2))) ∧
      (x ∈ spring EOdata ↔ (x ∈ EOdata ∧ (x.1.month = 3 ∨ x.1.month = 4 ∨ x.1.month = 5))) ∧
      (x ∈ summer EOdata ↔ (x ∈ EOdata ∧ (x.1.month = 6 ∨ x.1.month = 7 ∨ x.1.month = 8))) ∧
      (x ∈ autumn EOdata ↔
        (x ∈ EOdata ∧ (x.1.month = 9 ∨ x.1.month = 10 ∨ x.1.month = 11)))) := by
  refine ⟨winterFilter_iff s, springFilter_iff s, summerFilter_iff s, autumnFilter_iff s,
    ?_, ?_, ?_⟩
  · obtain ⟨y, m⟩ := s
    simp only at h1 h12
    interval_cases m <;> rfl
  · intro y
    exact ⟨rfl, rfl, rfl, rfl⟩
  · intro EOdata x
    simp [winter, spring, summer, autumn, Collection.filter, List.mem_filter,
      winterFilter_iff, springFilter_iff, summerFilter_iff, autumnFilter_iff]

/-- Witness for C8: an image of December 2003. -/
theorem seasons_partition_witness :
    ((1 : Int) ≤ 12) ∧ ((12 : Int) ≤ 12) ∧
    winterFilter ⟨2003, 12⟩ = true ∧
    [winterFilter ⟨2003, 12⟩, springFilter ⟨2003, 12⟩, summerFilter ⟨2003, 12⟩,
      autumnFilter ⟨2003, 12⟩].count true = 1 :=
  ⟨by decide, by decide,
    (seasons_partition ⟨2003, 12⟩ (by decide) (by decide)).1.mpr (Or.inl rfl),
    (seasons_partition ⟨2003, 12⟩ (by decide) (by decide)).2.2.2.2.1⟩

/-! ## Band renaming: the properties -/

theorem selectBands_names {α : Type} (image : Image α) (names : List String) :
    ∀ sel, selectBands image names = some sel → sel.map Prod.fst = names := by
  induction names with
  | nil =>
    intro sel h
    simp only [selectBands, Option.some.injEq] at h
    subst h
    rfl
  | cons n rest ih =>
    intro sel h
    rw [selectBands] at h
    cases hl : image.lookup n with
    | none => simp [hl] at h
    | some p =>
      cases hr : selectBands image rest with
      | none => simp [hl, hr] at h
      | some tl =>
        simp only [hl, hr, Option.map_some', Option.some.injEq] at h
        subst h
        simp [ih tl hr]

theorem rename_after_select {α : Type} (image : Image α) (names new_names : List String)
    (hlen : names.length = new_names.length) (sel : Image α)
    (h : selectBands image names = some sel) :
    ∃ out, rename sel new_names = some out ∧ out.map Prod.fst = new_names ∧
      out.map Prod.snd = sel.map Prod.snd := by
  have hn := selectBands_names image names sel h
  have hl : sel.length = new_names.length := by
    rw [← hlen, ← hn, List.length_map]
  refine ⟨_, by rw [rename, if_pos hl], ?_, ?_⟩
  · clear h hn hlen
    induction sel generalizing new_names with
    | nil =>
      cases new_names with
      | nil => rfl
      | cons _ _ => simp at hl
    | cons b rest ih =>
      cases new_names with
      | nil => simp at hl
      | cons n ns =>
        simp only [List.length_cons, add_left_inj] at hl
        simp [ih ns hl]
  · clear h hn hlen
    induction sel generalizing new_names with
    | nil =>
      cases new_names with
      | nil => rfl
      | cons _ _ => simp at hl
    | cons b rest ih =>
      cases new_names with
      | nil => simp at hl
      | cons n ns =>
        simp only [List.length_cons, add_left_inj] at hl
        simp [ih ns hl]

/-- C9. On an image that has the bands B1, B2, B3, B4, B5, B7 and pixel_qa,
`renameBandsETM` returns exactly those bands, in that order, under the names B,
G, R, NIR, SWIR1, SWIR2, pixel_qa.  In each rename table (ETM, OLI, MODIS) the
two lists have the same length and neither repeats a name, so after a
successful selection the renaming succeeds and pairs the names one to one; the
red band is named R, the near-infrared band NIR and the quality band
pixel_qa. -/
theorem renameBands_tables {α : Type} (image : Image α) (b1 b2 b3 b4 b5 b7 qa : Px α)
    (h1 : select image "B1" = some b1) (h2 : select image "B2" = some b2)
    (h3 : select image "B3" = some b3) (h4 : select image "B4" = some b4)
    (h5 : select image "B5" = some b5) (h7 : select image "B7" = some b7)
    (hq : select image "pixel_qa" = some qa) :
    selectBands image renameBandsETM.bands =
      some [("B1", b1), ("B2", b2), ("B3", b3), ("B4", b4), ("B5", b5), ("B7", b7),
        ("pixel_qa", qa)] ∧
    renameBandsETM image =
      some [("B", b1), ("G", b2), ("R", b3), ("NIR", b4), ("SWIR1", b5), ("SWIR2", b7),
        ("pixel_qa", qa)] ∧
    (renameBandsETM.bands.length = renameBandsETM.new_bands.length ∧
      renameBandsOLI.bands.length = renameBandsOLI.new_bands.length ∧
      renameBandsMODIS.bands.length = renameBandsMODIS.new_bands.length) ∧
    (renameBandsETM.new_bands.Nodup ∧ renameBandsOLI.new_bands.Nodup ∧
      renameBandsMODIS.new_bands.Nodup) ∧
    (renameBandsETM.bands.Nodup ∧ renameBandsOLI.bands.Nodup ∧
      renameBandsMODIS.bands.Nodup) ∧
    (renameBandsETM.bands.zip renameBandsETM.new_bands =
        [("B1", "B"), ("B2", "G"), ("B3", "R"), ("B4", "NIR"), ("B5", "SWIR1"),
          ("B7", "SWIR2"), ("pixel_qa", "pixel_qa")] ∧
      renameBandsOLI.bands.zip renameBandsOLI.new_bands =
        [("B2", "B"), ("B3", "G"), ("B4", "R"), ("B5", "NIR"), ("B6", "SWIR1"),
          ("B7", "SWIR2"), ("pixel_qa", "pixel_qa")] ∧
      renameBandsMODIS.bands.zip renameBandsMODIS.new_bands =
        [("sur_refl_b01", "R"), ("sur_refl_b02", "NIR"), ("sur_refl_b03", "B"),
          ("sur_refl_b04", "G"), ("sur_refl_b05", "Cirrus"), ("sur_refl_b06", "SWIR1"),
          ("sur_refl_b07", "SWIR2"), ("QC_500m", "pixel_qa")]) ∧
    (∀ (img sel : Image α),
      (selectBands img renameBandsETM.bands = some sel →
        ∃ out, renameBandsETM img = some out ∧
          out.map Prod.fst = renameBandsETM.new_bands ∧
          out.map Prod.snd = sel.map Prod.snd) ∧
      (selectBands img renameBandsOLI.bands = some sel →
        ∃ out, renameBandsOLI img = some out ∧
          out.map Prod.fst = renameBandsOLI.new_bands ∧
          out.map Prod.snd = sel.map Prod.snd) ∧
      (selectBands img renameBandsMODIS.bands = some sel →
        ∃ out, renameBandsMODIS img = some out ∧
          out.map Prod.fst = renameBandsMODIS.new_bands ∧
          out.map Prod.snd = sel.map Prod.snd)) := by
  unfold select at h1 h2 h3 h4 h5 h7 hq
  have hsel : selectBands image renameBandsETM.bands =
      some [("B1", b1), ("B2", b2), ("B3", b3), ("B4", b4), ("B5", b5), ("B7", b7),
        ("pixel_qa", qa)] := by
    simp [selectBands, renameBandsETM.bands, h1, h2, h3, h4, h5, h7, hq]
  refine ⟨hsel, ?_, ⟨rfl, rfl, rfl⟩, ⟨by decide, by decide, by decide⟩,
    ⟨by decide, by decide, by decide⟩, ⟨rfl, rfl, rfl⟩, ?_⟩
  · rw [renameBandsETM, hsel]
    rfl
  · intro img sel
    refine ⟨?_, ?_, ?_⟩
    · intro h
      obtain ⟨out, ho, hrest⟩ := rename_after_select img renameBandsETM.bands
        renameBandsETM.new_bands rfl sel h
      exact ⟨out, by rw [renameBandsETM, h]; exact ho, hrest⟩
    · intro h
      obtain ⟨out, ho, hrest⟩ := rename_after_select img renameBandsOLI.bands
        renameBandsOLI.new_bands rfl sel h
      exact ⟨out, by rw [renameBandsOLI, h]; exact ho, hrest⟩
    · intro h
      obtain ⟨out, ho, hrest⟩ := rename_after_select img renameBandsMODIS.bands
        renameBandsMODIS.new_bands rfl sel h
      exact ⟨out, by rw [renameBandsMODIS, h]; exact ho, hrest⟩

/-- Witness for C9: a Landsat 7 pixel with its eight bands (B6 is dropped). -/
theorem renameBands_tables_witness :
    renameBandsETM ([("B1", ⟨301, 1⟩), ("B2", ⟨502, 1⟩), ("B3", ⟨403, 1⟩), ("B4", ⟨2904, 1⟩),
        ("B5", ⟨1505, 1⟩), ("B6", ⟨2906, 1⟩), ("B7", ⟨707, 1⟩), ("pixel_qa", ⟨66, 1⟩)] :
        Image Int) =
      some [("B", ⟨301, 1⟩), ("G", ⟨502, 1⟩), ("R", ⟨403, 1⟩), ("NIR", ⟨2904, 1⟩),
        ("SWIR1", ⟨1505, 1⟩), ("SWIR2", ⟨707, 1⟩), ("pixel_qa", ⟨66, 1⟩)] :=
  (renameBands_tables ([("B1", ⟨301, 1⟩), ("B2", ⟨502, 1⟩), ("B3", ⟨403, 1⟩),
      ("B4", ⟨2904, 1⟩), ("B5", ⟨1505, 1⟩), ("B6", ⟨2906, 1⟩), ("B7", ⟨707, 1⟩),
      ("pixel_qa", ⟨66, 1⟩)] : Image Int)
    ⟨301, 1⟩ ⟨502, 1⟩ ⟨403, 1⟩ ⟨2904, 1⟩ ⟨1505, 1⟩ ⟨707, 1⟩ ⟨66, 1⟩
    rfl rfl rfl rfl rfl rfl rfl).2.1

/-! ## Rescaling -/

theorem select_divide (image : Image Int) (c : ℚ) (name : String) :
    select (divide image c) name =
      (select image name).map (fun p => ⟨(p.value : ℚ) / c, p.mask⟩) := by
  unfold select divide
  induction image with
  | nil => rfl
  | cons b rest ih =>
    simp only [List.map_cons, List.lookup]
    cases name == b.1 with
    | true => rfl
    | false => exact ih

end GEE
